import Mathlib

/-!
Verification of the shm_comm shared-memory ring buffer (PCrnjak/SHM_COMM).

Shallow embedding of `src/shm_comm/core.py`, `buffer.py`, `serialize.py`,
`exceptions.py` and the pattern endpoints in `patterns/pubsub.py` and
`patterns/reqrep.py`.  The shared-memory buffer `shm.buf` is modelled as a
total function from byte offset to stored byte value; the 128-byte header is
modelled as explicit record fields (the slot operations of `buffer.py` only
touch offsets `>= HEADER_SIZE` for the slot indices our theorems quantify
over, so the split is faithful).  numpy `int64` stores wrap through
`wrap64`; Python `%` on integers is `Int.fmod` (floored remainder), and a
zero modulus, which raises `ZeroDivisionError` in Python, is modelled by an
explicit check.  Python exceptions are an explicit error type returned in
`Except` / product form: a raise happens exactly where the source raises,
before any later state mutation.
-/

namespace ShmComm

/-- Byte-addressed view of `shm.buf`: a total map from offset to byte value. -/
abbrev Mem : Type := Int → Nat

/-- Slice assignment `buf[offset : offset + len(data)] = data`. -/
def writeBytes (buf : Mem) (offset : Int) (data : List Nat) : Mem :=
  fun addr =>
    if offset ≤ addr ∧ addr < offset + data.length then
      data.getD (addr - offset).toNat 0
    else buf addr

/-- Slice read `bytes(buf[offset : offset + len])`. -/
def readBytes (buf : Mem) (offset : Int) (len : Nat) : List Nat :=
  (List.range len).map fun (j : Nat) => buf (offset + (j : Int))

/-- core.py MAGIC constant. -/
def MAGIC : Int := 0x53484D434F4D4D31

/-- core.py VERSION constant. -/
def VERSION : Int := 1

/-- core.py HEADER_SIZE constant (bytes). -/
def HEADER_SIZE : Int := 128

/-- core.py SLOT_PREFIX_SIZE constant (bytes of the u32 size field). -/
def SLOT_PREFIX_SIZE : Int := 4

/-- buffer.py `_SIZE_STRUCT.pack_into`: the four little-endian base-256
digits of `n`.  (`pack_into` range-checks `n < 2^32`; that check is modelled
at the `writeSlot` call site.) -/
def packU32 (n : Nat) : List Nat :=
  [n % 256, n / 256 % 256, n / 65536 % 256, n / 16777216 % 256]

/-- buffer.py `_SIZE_STRUCT.unpack_from` at `offset`. -/
def unpackU32From (buf : Mem) (offset : Int) : Nat :=
  buf offset + 256 * buf (offset + 1) + 65536 * buf (offset + 2) +
    16777216 * buf (offset + 3)

/-- buffer.py `_slot_offset`. -/
def slotOffset (slotIndex slotSize : Int) : Int :=
  HEADER_SIZE + slotIndex * slotSize

/-- buffer.py `_write_slot`: store the size prefix, then the payload bytes.
`none` models the `struct.error` raised by `pack_into` when the length does
not fit in an unsigned 32-bit integer. -/
def writeSlot (buf : Mem) (slotIndex slotSize : Int) (payload : List Nat) :
    Option Mem :=
  if payload.length < 2 ^ 32 then
    some (writeBytes
      (writeBytes buf (slotOffset slotIndex slotSize) (packU32 payload.length))
      (slotOffset slotIndex slotSize + SLOT_PREFIX_SIZE) payload)
  else none

/-- buffer.py `_read_slot`: read the u32 size prefix, then that many bytes. -/
def readSlot (buf : Mem) (slotIndex slotSize : Int) : List Nat :=
  readBytes buf (slotOffset slotIndex slotSize + SLOT_PREFIX_SIZE)
    (unpackU32From buf (slotOffset slotIndex slotSize))

/-- numpy int64 store: wrap the value into `[-2^63, 2^63)`. -/
def wrap64 (z : Int) : Int := (z + 2 ^ 63) % 2 ^ 64 - 2 ^ 63

/-- The Python exceptions raised by the embedded code paths.  The four
`shm*` constructors are the classes of exceptions.py; `valueError`,
`zeroDivisionError` and `structError` are Python builtins / stdlib. -/
inductive PyError where
  | valueError
  | zeroDivisionError
  | structError
  | shmConnectionError
  | shmTimeoutError
  | shmBufferFullError
  | shmSerializationError
deriving DecidableEq, Repr

/-- Membership in the `SHMError` hierarchy of exceptions.py (every class
there derives from `SHMError`; the builtins do not). -/
def PyError.inShmHierarchy : PyError → Bool
  | .shmConnectionError | .shmTimeoutError | .shmBufferFullError
  | .shmSerializationError => true
  | _ => false

/-- A shm_comm segment: the eight live int64 header cells of core.py
(cells 8-15 are reserved zeros and never consulted) plus the raw slot
memory. -/
structure RingState where
  magic : Int
  version : Int
  head : Int
  tail : Int
  msgCount : Int
  dropCount : Int
  numSlots : Int
  slotSize : Int
  buf : Mem

/-- core.py `_init_header` on a freshly created segment (geometry values are
assumed representable in int64, as any allocatable segment's are). -/
def initHeader (numSlots slotSize : Int) (buf : Mem) : RingState :=
  { magic := MAGIC, version := VERSION, head := 0, tail := 0, msgCount := 0,
    dropCount := 0, numSlots := numSlots, slotSize := slotSize, buf := buf }

/-- buffer.py write_message, lines 159-171: write the slot at `head`, then
commit by advancing `HEAD` and bumping `MSG_COUNT` (both int64 stores). -/
def writeCommit (s : RingState) (payload : List Nat) :
    RingState × Except PyError Bool :=
  match writeSlot s.buf s.head s.slotSize payload with
  | none => (s, .error .structError)
  | some buf2 =>
      ({ s with
          buf := buf2
          head := wrap64 (Int.fmod (s.head + 1) s.numSlots)
          msgCount := wrap64 (s.msgCount + 1) }, .ok true)

/-- buffer.py write_message with `block=False` (the non-waiting paths): the
payload-size check, then — unless `overwrite` — the single full-test of the
loop, which on a full ring bumps `DROP_COUNT` and returns `False`; otherwise
the slot write and commit.  The state component is the segment after the
call, also when an exception is raised (all raises precede any mutation). -/
def writeMessage (s : RingState) (payload : List Nat) (overwrite : Bool) :
    RingState × Except PyError Bool :=
  if (payload.length : Int) > s.slotSize - SLOT_PREFIX_SIZE then
    (s, .error .valueError)
  else if s.numSlots = 0 then (s, .error .zeroDivisionError)
  else if overwrite = false ∧ Int.fmod (s.head + 1) s.numSlots = s.tail then
    ({ s with dropCount := wrap64 (s.dropCount + 1) }, .ok false)
  else writeCommit s payload

/-- buffer.py read_message_spsc: `None` when the private cursor has caught
up with `HEAD`, else the slot at `local_tail` and the advanced cursor. -/
def readMessageSpsc (s : RingState) (localTail : Int) :
    Except PyError (Option (List Nat × Int)) :=
  if localTail = s.head then .ok none
  else if s.numSlots = 0 then .error .zeroDivisionError
  else .ok (some (readSlot s.buf localTail s.slotSize,
    Int.fmod (localTail + 1) s.numSlots))

/-- A sequence of `write_message` calls with a common `overwrite` flag (all
with `block=False`), as the tests and the pattern endpoints issue them;
stops at the first raised exception. -/
def writeSeq (ow : Bool) (s : RingState) :
    List (List Nat) → RingState × Except PyError (List Bool)
  | [] => (s, .ok [])
  | p :: ps =>
    match (writeMessage s p ow).2 with
    | .error e => ((writeMessage s p ow).1, .error e)
    | .ok b =>
      match (writeSeq ow (writeMessage s p ow).1 ps).2 with
      | .error e => ((writeSeq ow (writeMessage s p ow).1 ps).1, .error e)
      | .ok bs => ((writeSeq ow (writeMessage s p ow).1 ps).1, .ok (b :: bs))

/-- pubsub.py Subscriber attach (lines 194-197): the private read cursor is
initialized from the `HEAD` cell observed on the freshly attached segment,
so the historical backlog is skipped. -/
def subscriberInitTail (s : RingState) : Int :=
  s.head

/-- reqrep.py Requester attach (line 239): the private reply-channel read
cursor is initialized to the literal constant 0, whatever the observed
header of the attached reply segment says. -/
def requesterInitRepTail (s : RingState) : Int :=
  0

/-- serialize.py inputs: raw byte-likes (`bytes`/`bytearray`/`memoryview`)
carry their byte content; any other Python object carries what
`pickle.dumps` and `msgpack.packb` would produce for it (`none` when the
backend call raises). -/
inductive PyObj where
  | bytesLike (data : List Nat)
  | other (pickled : Option (List Nat)) (packed : Option (List Nat))
deriving DecidableEq, Repr

/-- The distinct raise sites of serialize.py's `serialize` (all raise
`SHMSerializationError`, with different messages). -/
inductive SerError where
  | pickleFailed
  | msgpackNotInstalled
  | msgpackFailed
  | unknownMethod
deriving DecidableEq, Repr

/-- The exception class each serialize.py raise site uses. -/
def SerError.toPyError : SerError → PyError :=
  fun _ => .shmSerializationError

/-- serialize.py `serialize`: byte-likes pass through unchanged before any
look at `method`; then the two recognized methods, then the unknown-method
raise.  `msgpackAvailable` models the import-time `_MSGPACK_AVAILABLE`. -/
def serialize (msgpackAvailable : Bool) (obj : PyObj) (method : String) :
    Except SerError (List Nat) :=
  match obj with
  | .bytesLike data => .ok data
  | .other pickled packed =>
    if method = "pickle" then
      match pickled with
      | some d => .ok d
      | none => .error .pickleFailed
    else if method = "msgpack" then
      if msgpackAvailable = false then .error .msgpackNotInstalled
      else
        match packed with
        | some d => .ok d
        | none => .error .msgpackFailed
    else .error .unknownMethod

/-- Monotonic-clock instants, modelled as exact rationals. -/
abbrev Time := ℚ

/-- Loop outcomes of write_message's full-ring wait (lines 140-157). -/
inductive WaitOutcome where
  | freeSlot
  | raised (e : PyError)
  | ranOut
deriving DecidableEq, Repr

/-- write_message's `block=True` wait loop.  Each trace element is one
iteration's observations: the `TAIL` value loaded at line 142 (the only
header cell another process may move) and the `time.monotonic()` reading
of line 152.  `HEAD` is re-read too but only this producer writes it, so
it keeps the value in `s`.  The list running out means the loop was still
spinning when the modelled schedule ended. -/
def writeWaitLoop (s : RingState) (deadline : Option Time) :
    List (Int × Time) → WaitOutcome
  | [] => .ranOut
  | (tailObs, now) :: rest =>
    if s.numSlots = 0 then .raised .zeroDivisionError
    else if Int.fmod (s.head + 1) s.numSlots ≠ tailObs then .freeSlot
    else
      match deadline with
      | some d => if d ≤ now then .raised .shmBufferFullError
                  else writeWaitLoop s (some d) rest
      | none => writeWaitLoop s none rest

/-- Result of a whole `write_message(..., block=True, timeout=...)` call. -/
inductive BlockedWrite where
  | committed (s : RingState)
  | raised (e : PyError)
  | ranOut

/-- buffer.py write_message with `block=True`: the payload check, the
deadline `start + timeout` (computed from the `time.monotonic()` reading
`start` at line 138), the wait loop over the modelled schedule, then the
slot write and commit. -/
def writeMessageBlocking (s : RingState) (p : List Nat)
    (timeout : Option Time) (start : Time) (trace : List (Int × Time)) :
    BlockedWrite :=
  if (p.length : Int) > s.slotSize - SLOT_PREFIX_SIZE then .raised .valueError
  else
    match writeWaitLoop s (timeout.map fun t => start + t) trace with
    | .ranOut => .ranOut
    | .raised e => .raised e
    | .freeSlot =>
      match writeCommit s p with
      | (s2, .ok _) => .committed s2
      | (_, .error e) => .raised e

/-- core.py `_validate_header` over the two header cells it checks. -/
def validateHeader (magic version : Int) : Except PyError Unit :=
  if magic ≠ MAGIC then .error .shmConnectionError
  else if version ≠ VERSION then .error .shmConnectionError
  else .ok ()

/-- What one `SharedMemory(name, create=False)` attempt inside
attach_segment can observe: the name absent (`FileNotFoundError`), the
segment present with some header cells, or another OS failure. -/
inductive SegProbe where
  | absent
  | present (magic version : Int)
  | otherError
deriving DecidableEq, Repr

/-- attach_segment outcomes: success, the immediate re-raise of
`_validate_header`'s `SHMConnectionError`, the `SHMConnectionError` raised
after the deadline, or a schedule that ended mid-poll. -/
inductive AttachResult where
  | attached
  | headerError
  | timedOut
  | ranOut
deriving DecidableEq, Repr

/-- Both failing outcomes raise the same exception class. -/
def AttachResult.raised : AttachResult → Option PyError
  | .headerError => some .shmConnectionError
  | .timedOut => some .shmConnectionError
  | _ => none

/-- core.py attach_segment's poll loop (lines 209-229): while the clock
reads below the deadline, probe the name; absent or failing probes retry
after a `poll_interval` sleep, a present segment is validated —
`SHMConnectionError` from validation is re-raised at once (line 218), a
valid header returns.  Past the deadline the timeout `SHMConnectionError`
is raised.  Each trace element is one iteration's `time.monotonic()`
reading and probe result. -/
def attachLoop (deadline : Time) : List (Time × SegProbe) → AttachResult
  | [] => .ranOut
  | (now, pr) :: rest =>
    if now < deadline then
      match pr with
      | .absent => attachLoop deadline rest
      | .otherError => attachLoop deadline rest
      | .present m v =>
        match validateHeader m v with
        | .ok _ => .attached
        | .error _ => .headerError
    else .timedOut

/-- core.py attach_segment: deadline is `time.monotonic() + timeout` with
the initial clock reading `start`. -/
def attachSegment (timeout : Time) (start : Time)
    (probes : List (Time × SegProbe)) : AttachResult :=
  attachLoop (start + timeout) probes

/-- core.py attach_segment default `timeout=5.0` seconds. -/
def ATTACH_TIMEOUT_DEFAULT : Time := 5

/-- core.py attach_segment default `poll_interval=0.005` seconds (5 ms). -/
def ATTACH_POLL_INTERVAL_DEFAULT : Time := 5 / 1000

/-- The externally observable lifecycle state of one endpoint's segment:
whether this process still holds an open mapping, and whether the OS-level
name still exists. -/
structure SegHandle where
  attached : Bool
  linked : Bool
deriving DecidableEq, Repr

/-- core.py close_segment: `shm.close()` drops the mapping; with
`destroy=True` the name is also unlinked.  The whole body is wrapped in
`try/except` with failures only logged, so the operation is total: a
second unlink of an already-gone name changes nothing and raises
nothing. -/
def closeSegment (w : SegHandle) (destroy : Bool) : SegHandle :=
  { attached := false, linked := w.linked && !destroy }

/-- pubsub.py Publisher state relevant to close: the `self._shm is not
None` guard plus the segment's lifecycle state. -/
structure PublisherState where
  shmOpen : Bool
  seg : SegHandle
deriving DecidableEq, Repr

/-- pubsub.py Publisher.close (lines 129-138): when `self._shm` is set,
`close_segment(..., destroy=True)` then `self._shm = None`; otherwise a
no-op.  Never raises. -/
def publisherClose (p : PublisherState) :
    PublisherState × Except PyError Unit :=
  if p.shmOpen then
    ({ shmOpen := false, seg := closeSegment p.seg true }, .ok ())
  else (p, .ok ())

/-- pubsub.py Subscriber state relevant to close. -/
structure SubscriberState where
  shmOpen : Bool
  seg : SegHandle
deriving DecidableEq, Repr

/-- pubsub.py Subscriber.close (lines 240-245): like Publisher.close but
with `destroy=False` (attachers detach, never unlink). -/
def subscriberClose (p : SubscriberState) :
    SubscriberState × Except PyError Unit :=
  if p.shmOpen then
    ({ shmOpen := false, seg := closeSegment p.seg false }, .ok ())
  else (p, .ok ())

/-! Basic facts about the byte-level memory operations. -/

theorem writeBytes_lt (buf : Mem) (offset : Int) (data : List Nat)
    (addr : Int) (h : addr < offset) :
    writeBytes buf offset data addr = buf addr := by
  unfold writeBytes
  rw [if_neg (by omega)]

theorem writeBytes_ge (buf : Mem) (offset : Int) (data : List Nat)
    (addr : Int) (h : offset + data.length ≤ addr) :
    writeBytes buf offset data addr = buf addr := by
  unfold writeBytes
  rw [if_neg (by omega)]

theorem writeBytes_get (buf : Mem) (offset : Int) (data : List Nat)
    (j : Nat) (hj : j < data.length) :
    writeBytes buf offset data (offset + j) = data.getD j 0 := by
  unfold writeBytes
  rw [if_pos (by constructor <;> omega)]
  congr 1
  omega

theorem readBytes_length (buf : Mem) (offset : Int) (len : Nat) :
    (readBytes buf offset len).length = len := by
  unfold readBytes
  rw [List.length_map, List.length_range]

theorem readBytes_writeBytes (buf : Mem) (offset : Int) (data : List Nat) :
    readBytes (writeBytes buf offset data) offset data.length = data := by
  apply List.ext_getElem
  · exact readBytes_length _ _ _
  · intro i h1 h2
    simp only [readBytes, List.getElem_map, List.getElem_range]
    rw [writeBytes_get buf offset data i h2]
    exact List.getD_eq_getElem data 0 h2

theorem unpackU32From_congr (b1 b2 : Mem) (o : Int)
    (h : ∀ d : Nat, d < 4 → b1 (o + d) = b2 (o + d)) :
    unpackU32From b1 o = unpackU32From b2 o := by
  have h0 := h 0 (by omega)
  have h1 := h 1 (by omega)
  have h2 := h 2 (by omega)
  have h3 := h 3 (by omega)
  push_cast at h0 h1 h2 h3
  rw [add_zero] at h0
  unfold unpackU32From
  rw [h0, h1, h2, h3]

theorem unpack_pack (buf : Mem) (o : Int) (n : Nat) (hn : n < 2 ^ 32) :
    unpackU32From (writeBytes buf o (packU32 n)) o = n := by
  have w0 := writeBytes_get buf o (packU32 n) 0 (by simp [packU32])
  have w1 := writeBytes_get buf o (packU32 n) 1 (by simp [packU32])
  have w2 := writeBytes_get buf o (packU32 n) 2 (by simp [packU32])
  have w3 := writeBytes_get buf o (packU32 n) 3 (by simp [packU32])
  push_cast at w0 w1 w2 w3
  rw [add_zero] at w0
  unfold unpackU32From
  rw [w0, w1, w2, w3]
  show n % 256 + 256 * (n / 256 % 256) + 65536 * (n / 65536 % 256) +
    16777216 * (n / 16777216 % 256) = n
  omega

theorem readSlot_writeSlot (buf : Mem) (i S : Int) (p : List Nat)
    (buf2 : Mem) (h : writeSlot buf i S p = some buf2) :
    readSlot buf2 i S = p := by
  unfold writeSlot at h
  by_cases hp : p.length < 2 ^ 32
  · rw [if_pos hp] at h
    have hb : buf2 = writeBytes
        (writeBytes buf (slotOffset i S) (packU32 p.length))
        (slotOffset i S + SLOT_PREFIX_SIZE) p := by
      exact (Option.some.injEq _ _).mp h.symm
    subst hb
    unfold readSlot
    have hsz : unpackU32From (writeBytes
        (writeBytes buf (slotOffset i S) (packU32 p.length))
        (slotOffset i S + SLOT_PREFIX_SIZE) p) (slotOffset i S)
        = p.length := by
      have hc := unpackU32From_congr
        (writeBytes (writeBytes buf (slotOffset i S) (packU32 p.length))
          (slotOffset i S + SLOT_PREFIX_SIZE) p)
        (writeBytes buf (slotOffset i S) (packU32 p.length))
        (slotOffset i S) ?_
      · rw [hc]
        exact unpack_pack buf (slotOffset i S) p.length hp
      · intro d hd
        apply writeBytes_lt
        simp only [SLOT_PREFIX_SIZE]
        omega
    rw [hsz]
    exact readBytes_writeBytes _ _ p
  · rw [if_neg hp] at h
    exact absurd h (by simp)

theorem wrap64_id (z : Int) (h1 : -(2 ^ 63) ≤ z) (h2 : z < 2 ^ 63) :
    wrap64 z = z := by
  unfold wrap64
  rw [Int.emod_eq_of_lt (by omega) (by omega)]
  omega

/-- Claim C1: raw-bytes round-trip.  For a segment with a valid header
(cursors and geometry in range) and a payload `p` with
`|p| <= SLOT_SIZE - 4`, after a successful `write_message(shm, p)` (default
flags: non-overwrite, non-blocking) the read of the slot just written —
`read_message_spsc` at the pre-write `HEAD` — returns exactly `p` together
with `new_tail = (old HEAD + 1) mod NUM_SLOTS`. -/
theorem c1_raw_roundtrip (s s2 : RingState) (p : List Nat)
    (hN : 0 < s.numSlots) (hNb : s.numSlots < 2 ^ 63)
    (hh0 : 0 ≤ s.head) (hh1 : s.head < s.numSlots)
    (ht0 : 0 ≤ s.tail) (ht1 : s.tail < s.numSlots)
    (hw : writeMessage s p false = (s2, .ok true)) :
    readMessageSpsc s2 s.head =
      .ok (some (p, Int.fmod (s.head + 1) s.numSlots)) := by
  unfold writeMessage at hw
  split at hw
  · simp at hw
  · split at hw
    · omega
    · split at hw
      · simp at hw
      · rename_i hsize hNz hfull
        unfold writeCommit at hw
        split at hw
        · simp at hw
        · rename_i buf2 hws
          rw [Prod.mk.injEq] at hw
          obtain ⟨hs2, -⟩ := hw
          have hfm : Int.fmod (s.head + 1) s.numSlots
              = (s.head + 1) % s.numSlots :=
            Int.fmod_eq_emod _ (by omega)
          have hm0 : 0 ≤ (s.head + 1) % s.numSlots :=
            Int.emod_nonneg _ (by omega)
          have hm1 : (s.head + 1) % s.numSlots < s.numSlots :=
            Int.emod_lt_of_pos _ hN
          have hmne : Int.fmod (s.head + 1) s.numSlots ≠ s.head := by
            rw [hfm]
            intro he
            rcases lt_or_ge (s.head + 1) s.numSlots with hlt | hge
            · rw [Int.emod_eq_of_lt (by omega) hlt] at he
              omega
            · have hN1 : s.numSlots = s.head + 1 := by omega
              have hz : (s.head + 1) % s.numSlots = 0 := by
                rw [hN1]
                exact Int.emod_self
              exact hfull ⟨rfl, by rw [hfm]; omega⟩
          have hwr : wrap64 (Int.fmod (s.head + 1) s.numSlots)
              = Int.fmod (s.head + 1) s.numSlots := by
            apply wrap64_id <;> omega
          subst hs2
          unfold readMessageSpsc
          rw [if_neg (by simpa [hwr] using fun he => hmne he.symm)]
          rw [if_neg (by simpa using fun he => hNz he)]
          rw [readSlot_writeSlot s.buf s.head s.slotSize p buf2 hws]

theorem writeSeq_nil (ow : Bool) (s : RingState) :
    writeSeq ow s [] = (s, .ok []) := rfl

theorem writeSeq_cons (ow : Bool) (s : RingState) (p : List Nat)
    (ps : List (List Nat)) :
    writeSeq ow s (p :: ps) =
      match (writeMessage s p ow).2 with
      | .error e => ((writeMessage s p ow).1, .error e)
      | .ok b =>
        match (writeSeq ow (writeMessage s p ow).1 ps).2 with
        | .error e => ((writeSeq ow (writeMessage s p ow).1 ps).1, .error e)
        | .ok bs =>
          ((writeSeq ow (writeMessage s p ow).1 ps).1, .ok (b :: bs)) := rfl

theorem writeSeq_append (ow : Bool) (sA sB : RingState)
    (xs ys : List (List Nat)) (bs : List Bool)
    (h : writeSeq ow sA xs = (sB, .ok bs)) :
    writeSeq ow sA (xs ++ ys) =
      ((writeSeq ow sB ys).1,
        (writeSeq ow sB ys).2.map fun bs2 => bs ++ bs2) := by
  induction xs generalizing sA bs with
  | nil =>
    rw [writeSeq_nil, Prod.mk.injEq] at h
    obtain ⟨h1, h2⟩ := h
    cases h2
    rw [List.nil_append, h1]
    cases hy : writeSeq ow sB ys with
    | mk s2 r =>
      cases r <;> simp [Except.map]
  | cons x xs ih =>
    rw [List.cons_append, writeSeq_cons]
    rw [writeSeq_cons] at h
    cases hx : writeMessage sA x ow with
    | mk sa ra =>
      cases ra with
      | error e =>
        rw [hx] at h
        dsimp only at h
        exact absurd h (by simp)
      | ok b =>
        rw [hx] at h
        dsimp only at h
        cases hxs : writeSeq ow sa xs with
        | mk sb rb =>
          rw [hxs] at h
          cases rb with
          | error e =>
            dsimp only at h
            exact absurd h (by simp)
          | ok bs0 =>
            dsimp only at h
            rw [Prod.mk.injEq] at h
            obtain ⟨h1, h2⟩ := h
            cases h2
            rw [ih sa bs0 (by rw [hxs, h1])]
            cases hy : writeSeq ow sB ys with
            | mk s2 r =>
              cases r <;> simp [Except.map]

/-- Evaluation of one successful non-full, non-overwrite `write_message`. -/
theorem writeMessage_free (s : RingState) (p : List Nat)
    (hN : 0 < s.numSlots)
    (hfit : (p.length : Int) ≤ s.slotSize - SLOT_PREFIX_SIZE)
    (hp32 : p.length < 2 ^ 32)
    (hh0 : 0 ≤ s.head) (hh1 : s.head + 1 < s.numSlots) (ht : s.tail = 0) :
    writeMessage s p false =
      ({ s with
          buf := writeBytes (writeBytes s.buf (slotOffset s.head s.slotSize)
              (packU32 p.length))
            (slotOffset s.head s.slotSize + SLOT_PREFIX_SIZE) p
          head := wrap64 (Int.fmod (s.head + 1) s.numSlots)
          msgCount := wrap64 (s.msgCount + 1) }, .ok true) := by
  have hfm : Int.fmod (s.head + 1) s.numSlots = s.head + 1 := by
    rw [Int.fmod_eq_emod _ (by omega)]
    exact Int.emod_eq_of_lt (by omega) hh1
  unfold writeMessage writeCommit writeSlot
  rw [if_neg (by omega), if_neg (by omega),
    if_neg (by rintro ⟨-, hc⟩; rw [hfm] at hc; omega), if_pos hp32]

/-- Non-overwrite writes into a ring with `TAIL = 0` that has room for all
of them (`head + k <= NUM_SLOTS - 1`): each returns `True`; `HEAD` advances
one slot per write and `TAIL`, `DROP_COUNT` and the geometry stay put. -/
theorem writeSeq_room (ps : List (List Nat)) (s : RingState)
    (hN : 0 < s.numSlots) (hNb : s.numSlots < 2 ^ 63)
    (ht : s.tail = 0) (hh0 : 0 ≤ s.head)
    (hroom : s.head + ps.length ≤ s.numSlots - 1)
    (hfit : ∀ p ∈ ps, (p.length : Int) ≤ s.slotSize - SLOT_PREFIX_SIZE)
    (hfit32 : ∀ p ∈ ps, p.length < 2 ^ 32) :
    ∃ sf, writeSeq false s ps = (sf, .ok (List.replicate ps.length true)) ∧
      sf.head = s.head + ps.length ∧ sf.tail = 0 ∧
      sf.dropCount = s.dropCount ∧ sf.numSlots = s.numSlots ∧
      sf.slotSize = s.slotSize := by
  induction ps generalizing s with
  | nil =>
    exact ⟨s, rfl, by simp, ht, rfl, rfl, rfl⟩
  | cons p ps ih =>
    have hfit1 : (p.length : Int) ≤ s.slotSize - SLOT_PREFIX_SIZE :=
      hfit p (by simp)
    have hp32 : p.length < 2 ^ 32 := hfit32 p (by simp)
    have hh1 : s.head + 1 < s.numSlots := by
      have := List.length_cons p ps
      omega
    have hwm := writeMessage_free s p hN hfit1 hp32 hh0 hh1 ht
    have hfm : Int.fmod (s.head + 1) s.numSlots = s.head + 1 := by
      rw [Int.fmod_eq_emod _ (by omega)]
      exact Int.emod_eq_of_lt (by omega) hh1
    have hwr : wrap64 (Int.fmod (s.head + 1) s.numSlots) = s.head + 1 := by
      rw [hfm]
      apply wrap64_id <;> omega
    obtain ⟨sf, hseq, hhead, htail, hdrop, hN', hS'⟩ :=
      ih ({ s with
          buf := writeBytes (writeBytes s.buf (slotOffset s.head s.slotSize)
              (packU32 p.length))
            (slotOffset s.head s.slotSize + SLOT_PREFIX_SIZE) p
          head := wrap64 (Int.fmod (s.head + 1) s.numSlots)
          msgCount := wrap64 (s.msgCount + 1) })
        hN hNb ht (by simp only [hwr]; omega)
        (by simp only [hwr, List.length_cons] at hroom ⊢; omega)
        (fun q hq => hfit q (by simp [hq]))
        (fun q hq => hfit32 q (by simp [hq]))
    refine ⟨sf, ?_, ?_, htail, hdrop, hN', hS'⟩
    · unfold writeSeq
      rw [hwm]
      simp only
      rw [hseq]
      simp [List.replicate_succ]
    · simp only [hwr] at hhead
      simp only [List.length_cons]
      push_cast at hhead ⊢
      omega

theorem writeSlot_size (buf : Mem) (i S : Int) (p : List Nat) (buf2 : Mem)
    (h : writeSlot buf i S p = some buf2) :
    unpackU32From buf2 (slotOffset i S) = p.length := by
  unfold writeSlot at h
  by_cases hp : p.length < 2 ^ 32
  · rw [if_pos hp] at h
    have hb : buf2 = writeBytes
        (writeBytes buf (slotOffset i S) (packU32 p.length))
        (slotOffset i S + SLOT_PREFIX_SIZE) p :=
      (Option.some.injEq _ _).mp h.symm
    subst hb
    have hc := unpackU32From_congr
      (writeBytes (writeBytes buf (slotOffset i S) (packU32 p.length))
        (slotOffset i S + SLOT_PREFIX_SIZE) p)
      (writeBytes buf (slotOffset i S) (packU32 p.length))
      (slotOffset i S) ?_
    · rw [hc]
      exact unpack_pack buf (slotOffset i S) p.length hp
    · intro d hd
      apply writeBytes_lt
      simp only [SLOT_PREFIX_SIZE]
      omega
  · rw [if_neg hp] at h
    exact absurd h (by simp)

theorem writeSlot_frame_lt (buf : Mem) (i S : Int) (p : List Nat)
    (buf2 : Mem) (h : writeSlot buf i S p = some buf2) (addr : Int)
    (ha : addr < slotOffset i S) : buf2 addr = buf addr := by
  unfold writeSlot at h
  by_cases hp : p.length < 2 ^ 32
  · rw [if_pos hp] at h
    have hb : buf2 = writeBytes
        (writeBytes buf (slotOffset i S) (packU32 p.length))
        (slotOffset i S + SLOT_PREFIX_SIZE) p :=
      (Option.some.injEq _ _).mp h.symm
    subst hb
    rw [writeBytes_lt _ _ _ _ (by simp only [SLOT_PREFIX_SIZE]; omega),
      writeBytes_lt _ _ _ _ ha]
  · rw [if_neg hp] at h
    exact absurd h (by simp)

theorem readBytes_congr (b1 b2 : Mem) (o : Int) (len : Nat)
    (h : ∀ j : Nat, j < len → b1 (o + j) = b2 (o + j)) :
    readBytes b1 o len = readBytes b2 o len := by
  unfold readBytes
  apply List.map_congr_left
  intro j hj
  exact h j (List.mem_range.mp hj)

/-- Two memories agreeing on the whole region of slot `i` yield the same
`_read_slot` result, provided the stored payload size fits in the slot. -/
theorem readSlot_congr (b1 b2 : Mem) (i S : Int)
    (hagree : ∀ addr : Int, slotOffset i S ≤ addr →
      addr < slotOffset i S + S → b1 addr = b2 addr)
    (hsz : (unpackU32From b2 (slotOffset i S) : Int) + SLOT_PREFIX_SIZE ≤ S) :
    readSlot b1 i S = readSlot b2 i S := by
  have hS4 : SLOT_PREFIX_SIZE ≤ S := by
    have : (0 : Int) ≤ (unpackU32From b2 (slotOffset i S) : Int) := by
      positivity
    omega
  have hu : unpackU32From b1 (slotOffset i S)
      = unpackU32From b2 (slotOffset i S) := by
    apply unpackU32From_congr
    intro d hd
    apply hagree
    · omega
    · simp only [SLOT_PREFIX_SIZE] at hS4
      omega
  unfold readSlot
  rw [hu]
  apply readBytes_congr
  intro j hj
  apply hagree
  · simp only [SLOT_PREFIX_SIZE]
    omega
  · simp only [SLOT_PREFIX_SIZE] at hsz ⊢
    omega

/-- Evaluation of one overwrite-mode `write_message`: it never consults
`TAIL` and always commits. -/
theorem writeMessage_ow (s : RingState) (p : List Nat)
    (hfit : (p.length : Int) ≤ s.slotSize - SLOT_PREFIX_SIZE)
    (hp32 : p.length < 2 ^ 32) (hNz : s.numSlots ≠ 0) :
    writeMessage s p true =
      ({ s with
          buf := writeBytes (writeBytes s.buf (slotOffset s.head s.slotSize)
              (packU32 p.length))
            (slotOffset s.head s.slotSize + SLOT_PREFIX_SIZE) p
          head := wrap64 (Int.fmod (s.head + 1) s.numSlots)
          msgCount := wrap64 (s.msgCount + 1) }, .ok true) := by
  unfold writeMessage writeCommit writeSlot
  rw [if_neg (by omega), if_neg hNz,
    if_neg (by rintro ⟨hc, -⟩; exact absurd hc (by simp)), if_pos hp32]

/-- Overwrite writes starting at `head < NUM_SLOTS` with `head + k` not
exceeding `NUM_SLOTS`: all return `True`, `HEAD` ends at
`(head + k) mod NUM_SLOTS`, `TAIL`/`DROP_COUNT`/geometry are unchanged,
slot `head + j` holds the `j`-th payload, and all memory below the first
written slot is untouched. -/
theorem writeSeq_overwrite (ps : List (List Nat)) (s : RingState)
    (hN : 0 < s.numSlots) (hNb : s.numSlots < 2 ^ 63)
    (hh : 0 ≤ s.head) (hh1 : s.head < s.numSlots)
    (hh2 : s.head + ps.length ≤ s.numSlots)
    (hfit : ∀ p ∈ ps, (p.length : Int) ≤ s.slotSize - SLOT_PREFIX_SIZE)
    (hfit32 : ∀ p ∈ ps, p.length < 2 ^ 32) :
    ∃ sf, writeSeq true s ps = (sf, .ok (List.replicate ps.length true)) ∧
      sf.head = Int.fmod (s.head + ps.length) s.numSlots ∧
      sf.tail = s.tail ∧ sf.numSlots = s.numSlots ∧
      sf.slotSize = s.slotSize ∧ sf.dropCount = s.dropCount ∧
      (∀ k : Nat, ∀ hk : k < ps.length,
        readSlot sf.buf (s.head + k) s.slotSize = ps.get ⟨k, hk⟩) ∧
      (∀ addr : Int, addr < slotOffset s.head s.slotSize →
        sf.buf addr = s.buf addr) := by
  induction ps generalizing s with
  | nil =>
    refine ⟨s, writeSeq_nil true s, ?_, rfl, rfl, rfl, rfl, ?_, ?_⟩
    · rw [Int.fmod_eq_emod _ (by omega)]
      simp only [List.length_nil, Nat.cast_zero, add_zero]
      exact (Int.emod_eq_of_lt hh hh1).symm
    · intro k hk
      exact absurd hk (by simp)
    · intro addr ha
      rfl
  | cons p ps ih =>
    have hfit1 : (p.length : Int) ≤ s.slotSize - SLOT_PREFIX_SIZE :=
      hfit p (by simp)
    have hp32 : p.length < 2 ^ 32 := hfit32 p (by simp)
    have hS4 : SLOT_PREFIX_SIZE ≤ s.slotSize := by
      have h0 : (0 : Int) ≤ (p.length : Int) := by positivity
      omega
    have hwm := writeMessage_ow s p hfit1 hp32 (by omega)
    have hws : writeSlot s.buf s.head s.slotSize p =
        some (writeBytes (writeBytes s.buf (slotOffset s.head s.slotSize)
            (packU32 p.length))
          (slotOffset s.head s.slotSize + SLOT_PREFIX_SIZE) p) := by
      unfold writeSlot
      rw [if_pos hp32]
    have hoff : slotOffset (s.head + 1) s.slotSize
        = slotOffset s.head s.slotSize + s.slotSize := by
      unfold slotOffset
      ring
    have hszle : (unpackU32From (writeBytes (writeBytes s.buf
        (slotOffset s.head s.slotSize) (packU32 p.length))
        (slotOffset s.head s.slotSize + SLOT_PREFIX_SIZE) p)
        (slotOffset s.head s.slotSize) : Int) + SLOT_PREFIX_SIZE
        ≤ s.slotSize := by
      rw [writeSlot_size s.buf s.head s.slotSize p _ hws]
      omega
    rcases lt_or_ge (s.head + 1) s.numSlots with hlt | hge
    · -- no wrap after this write; recurse
      have hfm : Int.fmod (s.head + 1) s.numSlots = s.head + 1 := by
        rw [Int.fmod_eq_emod _ (by omega)]
        exact Int.emod_eq_of_lt (by omega) hlt
      have hwr : wrap64 (Int.fmod (s.head + 1) s.numSlots) = s.head + 1 := by
        rw [hfm]
        apply wrap64_id <;> omega
      have hS4 : (4 : Int) ≤ s.slotSize := by
        have h0 : (0 : Int) ≤ (p.length : Int) := by positivity
        simp only [SLOT_PREFIX_SIZE] at hfit1
        omega
      set s1 : RingState := { s with
          buf := writeBytes (writeBytes s.buf (slotOffset s.head s.slotSize)
              (packU32 p.length))
            (slotOffset s.head s.slotSize + SLOT_PREFIX_SIZE) p
          head := wrap64 (Int.fmod (s.head + 1) s.numSlots)
          msgCount := wrap64 (s.msgCount + 1) } with hs1
      have e_head : s1.head = s.head + 1 := hwr
      have e_num : s1.numSlots = s.numSlots := rfl
      have e_size : s1.slotSize = s.slotSize := rfl
      obtain ⟨sf, hseq, hhead, htail, hnum, hsize, hdrop, hslots, hframe⟩ :=
        ih s1 hN hNb (by rw [e_head]; omega)
          (by rw [e_head]; exact hlt)
          (by rw [e_head]
              show s.head + 1 + (ps.length : Int) ≤ s.numSlots
              simp only [List.length_cons] at hh2
              push_cast at hh2 ⊢
              omega)
          (fun q hq => hfit q (by simp [hq]))
          (fun q hq => hfit32 q (by simp [hq]))
      have hframe1 : ∀ addr : Int,
          addr < slotOffset s.head s.slotSize + s.slotSize →
          sf.buf addr = s1.buf addr := by
        intro addr ha
        apply hframe
        rw [e_head, e_size, hoff]
        exact ha
      refine ⟨sf, ?_, ?_, ?_, ?_, ?_, ?_, ?_, ?_⟩
      · rw [writeSeq_cons, hwm]
        dsimp only
        rw [hseq]
        simp [List.replicate_succ]
      · rw [hhead, e_head, e_num]
        rw [Int.fmod_eq_emod _ (by omega), Int.fmod_eq_emod _ (by omega)]
        congr 1
        simp only [List.length_cons]
        push_cast
        ring
      · rw [htail]
      · rw [hnum]
      · rw [hsize]
      · rw [hdrop]
      · intro k hk
        cases k with
        | zero =>
          show readSlot sf.buf (s.head + ((0 : Nat) : Int)) s.slotSize = p
          have hro : readSlot sf.buf s.head s.slotSize
              = readSlot s1.buf s.head s.slotSize := by
            apply readSlot_congr
            · intro addr ha1 ha2
              exact hframe1 addr ha2
            · exact hszle
          rw [Nat.cast_zero, add_zero, hro]
          exact readSlot_writeSlot s.buf s.head s.slotSize p _ hws
        | succ k2 =>
          have hk2 : k2 < ps.length := by
            simpa using hk
          have hx := hslots k2 hk2
          rw [e_head] at hx
          show readSlot sf.buf (s.head + ((k2 + 1 : Nat) : Int)) s.slotSize
            = ps.get ⟨k2, hk2⟩
          rw [show (s.head + ((k2 + 1 : Nat) : Int)) = s.head + 1 + (k2 : Int)
            from by push_cast; ring]
          exact hx
      · intro addr ha
        have h1 : sf.buf addr = s1.buf addr := by
          apply hframe1
          omega
        rw [h1]
        exact writeSlot_frame_lt s.buf s.head s.slotSize p _ hws addr ha
    · -- this write wraps `HEAD` to 0, so it is the last one
      have hN1 : s.head + 1 = s.numSlots := by omega
      have hps0 : ps = [] := by
        rw [← List.length_eq_zero]
        simp only [List.length_cons] at hh2
        push_cast at hh2
        omega
      subst hps0
      have hfm : Int.fmod (s.head + 1) s.numSlots = 0 := by
        rw [Int.fmod_eq_emod _ (by omega), hN1, Int.emod_self]
      have hwr : wrap64 (Int.fmod (s.head + 1) s.numSlots) = 0 := by
        rw [hfm]
        apply wrap64_id <;> omega
      set s1 : RingState := { s with
          buf := writeBytes (writeBytes s.buf (slotOffset s.head s.slotSize)
              (packU32 p.length))
            (slotOffset s.head s.slotSize + SLOT_PREFIX_SIZE) p
          head := wrap64 (Int.fmod (s.head + 1) s.numSlots)
          msgCount := wrap64 (s.msgCount + 1) } with hs1
      refine ⟨s1, ?_, ?_, rfl, rfl, rfl, rfl, ?_, ?_⟩
      · rw [writeSeq_cons, hwm]
        dsimp only
        rw [writeSeq_nil]
        rfl
      · simp only [List.length_cons, List.length_nil, Nat.zero_add,
          Nat.cast_one]
        rw [hwr, hfm]
      · intro k hk
        have hk0 : k = 0 := by
          simp only [List.length_cons, List.length_nil] at hk
          omega
        subst hk0
        show readSlot s1.buf (s.head + ((0 : Nat) : Int)) s.slotSize = p
        rw [Nat.cast_zero, add_zero]
        exact readSlot_writeSlot s.buf s.head s.slotSize p _ hws
      · intro addr ha
        exact writeSlot_frame_lt s.buf s.head s.slotSize p _ hws addr ha

/-- Claim C3 counterexample.  On a fresh 2-slot ring, writing `2*N = 4`
messages with `overwrite=true` succeeds (all four return `True`) and brings
`HEAD` back to 0; a consumer whose private cursor was 0 (the pre-burst
`HEAD`) then gets `None` from `read_message_spsc` — it observes zero
messages, not the final `N - 1 = 1` messages the claim promises. -/
theorem c3_counterexample :
    (writeSeq true (initHeader 2 8 (fun _ => 0)) [[1], [2], [3], [4]]).2 =
        .ok [true, true, true, true] ∧
      (writeSeq true (initHeader 2 8 (fun _ => 0))
        [[1], [2], [3], [4]]).1.head = 0 ∧
      readMessageSpsc
        (writeSeq true (initHeader 2 8 (fun _ => 0)) [[1], [2], [3], [4]]).1
        0 = .ok none :=
  ⟨rfl, rfl, rfl⟩

/-- Claim C3 (amended): after writing `2*N` messages with `overwrite=true`
into a fresh ring, every write reports success, `HEAD` returns to its
pre-burst value 0, and a consumer whose private cursor was 0 observes no
messages at all — its `read_message_spsc` returns `None` (the
empty-indication), the SPSC empty/full ambiguity after a full wrap — even
though the slot array physically holds the last `N` messages
(slot `k` holds message `N + k`). -/
theorem c3_overwrite_burst_amended (N S : Int) (buf : Mem)
    (msgs : List (List Nat)) (hN : 0 < N) (hNb : N < 2 ^ 63)
    (hlen : (msgs.length : Int) = 2 * N)
    (hfit : ∀ p ∈ msgs, (p.length : Int) ≤ S - SLOT_PREFIX_SIZE)
    (hfit32 : ∀ p ∈ msgs, p.length < 2 ^ 32) :
    ∃ sf, writeSeq true (initHeader N S buf) msgs =
        (sf, .ok (List.replicate msgs.length true)) ∧
      sf.head = 0 ∧ readMessageSpsc sf 0 = .ok none ∧
      ∀ k : Nat, ∀ hk : N.toNat + k < msgs.length,
        readSlot sf.buf (k : Int) S = msgs.get ⟨N.toNat + k, hk⟩ := by
  have hNt : (N.toNat : Int) = N := Int.toNat_of_nonneg (le_of_lt hN)
  have hmlen : msgs.length = N.toNat + N.toNat := by omega
  have hq1len : (msgs.take N.toNat).length = N.toNat := by
    rw [List.length_take]
    omega
  have hq2len : (msgs.drop N.toNat).length = N.toNat := by
    rw [List.length_drop]
    omega
  have hfmN : Int.fmod ((0 : Int) + (N.toNat : Int)) N = 0 := by
    rw [Int.fmod_eq_emod _ (by omega), zero_add, hNt, Int.emod_self]
  have e0_head : (initHeader N S buf).head = 0 := rfl
  have e0_num : (initHeader N S buf).numSlots = N := rfl
  obtain ⟨s1, hseq1, hhead1, htail1, hnum1, hsize1, hdrop1, hslots1, _⟩ :=
    writeSeq_overwrite (msgs.take N.toNat) (initHeader N S buf)
      hN hNb le_rfl hN (by omega)
      (fun q hq => hfit q (List.take_subset _ _ hq))
      (fun q hq => hfit32 q (List.take_subset _ _ hq))
  have e1_head : s1.head = 0 := by
    rw [hhead1]
    show Int.fmod ((0 : Int) + ((msgs.take N.toNat).length : Int)) N = 0
    rw [hq1len]
    exact hfmN
  have e1_num : s1.numSlots = N := hnum1
  have e1_size : s1.slotSize = S := hsize1
  obtain ⟨sf, hseq2, hhead2, htail2, hnum2, hsize2, hdrop2, hslots2, _⟩ :=
    writeSeq_overwrite (msgs.drop N.toNat) s1
      (by omega) (by omega) (by omega) (by omega) (by omega)
      (fun q hq => by
        rw [e1_size]
        exact hfit q (List.drop_subset _ _ hq))
      (fun q hq => hfit32 q (List.drop_subset _ _ hq))
  have ef_head : sf.head = 0 := by
    rw [hhead2, e1_head, e1_num]
    show Int.fmod ((0 : Int) + ((msgs.drop N.toNat).length : Int)) N = 0
    rw [hq2len]
    exact hfmN
  refine ⟨sf, ?_, ef_head, ?_, ?_⟩
  · have happ := writeSeq_append true (initHeader N S buf) s1
      (msgs.take N.toNat) (msgs.drop N.toNat)
      (List.replicate (msgs.take N.toNat).length true) hseq1
    rw [List.take_append_drop] at happ
    rw [happ, hseq2]
    simp only [Except.map]
    rw [← List.replicate_add, hq1len, hq2len, ← hmlen]
  · unfold readMessageSpsc
    rw [if_pos ef_head.symm]
  · intro k hk
    have hk2 : k < (msgs.drop N.toNat).length := by omega
    have hx := hslots2 k hk2
    rw [e1_head, e1_size, zero_add] at hx
    rw [hx]
    rw [List.get_eq_getElem, List.get_eq_getElem, List.getElem_drop]

/-- Witness for the amended C3 on a fresh 1-slot ring with two messages. -/
theorem c3_overwrite_burst_amended_witness :
    ∃ sf, writeSeq true (initHeader 1 8 (fun _ => 0)) [[5], [6]] =
        (sf, .ok (List.replicate 2 true)) ∧
      sf.head = 0 ∧ readMessageSpsc sf 0 = .ok none ∧
      ∀ k : Nat, ∀ hk : (1 : Int).toNat + k < [[5], [6]].length,
        readSlot sf.buf (k : Int) 8 = [[5], [6]].get ⟨(1 : Int).toNat + k, hk⟩ := by
  have h := c3_overwrite_burst_amended 1 8 (fun _ => 0) [[5], [6]]
    (by decide) (by decide) (by decide) (by decide) (by decide)
  simpa using h

/-- Claim C2: sentinel capacity.  From a freshly initialized ring
(`HEAD = TAIL = 0`, `NUM_SLOTS = N`), the first `N - 1` non-overwrite
writes all return `True`; the `N`-th write (still `block=False`) returns
`False`, increments `DROP_COUNT` by exactly 1 (from 0 to 1) and leaves
`HEAD` unchanged at `N - 1`. -/
theorem c2_sentinel_capacity (N S : Int) (buf : Mem) (ps : List (List Nat))
    (hN : 1 ≤ N) (hNb : N < 2 ^ 63) (hlen : (ps.length : Int) = N)
    (hfit : ∀ p ∈ ps, (p.length : Int) ≤ S - SLOT_PREFIX_SIZE)
    (hfit32 : ∀ p ∈ ps, p.length < 2 ^ 32) :
    ∃ sf, writeSeq false (initHeader N S buf) ps =
        (sf, .ok (List.replicate (ps.length - 1) true ++ [false])) ∧
      sf.head = N - 1 ∧ sf.dropCount = 1 ∧ sf.tail = 0 := by
  rcases List.eq_nil_or_concat ps with hnil | ⟨qs, plast, hps⟩
  · subst hnil
    rw [List.length_nil] at hlen
    push_cast at hlen
    omega
  · rw [List.concat_eq_append] at hps
    subst hps
    have hqlen : (qs.length : Int) = N - 1 := by
      simp only [List.length_append, List.length_singleton] at hlen
      push_cast at hlen
      omega
    obtain ⟨s1, hseq1, hhead1, htail1, hdrop1, hN1, hS1⟩ :=
      writeSeq_room qs (initHeader N S buf) (by simp only [initHeader]; omega)
        (by simp only [initHeader]; omega) rfl (by simp [initHeader])
        (by simp only [initHeader]; omega)
        (fun q hq => by
          simpa only [initHeader] using hfit q (by simp [hq]))
        (fun q hq => hfit32 q (by simp [hq]))
    simp only [initHeader] at hhead1 hdrop1 hN1 hS1
    have hfull : Int.fmod (s1.head + 1) s1.numSlots = s1.tail := by
      rw [hhead1, hN1, htail1]
      have he : (0 : Int) + (qs.length : Int) + 1 = N := by omega
      rw [he, Int.fmod_eq_emod _ (by omega), Int.emod_self]
    have hlast : writeMessage s1 plast false =
        ({ s1 with dropCount := wrap64 (s1.dropCount + 1) }, .ok false) := by
      unfold writeMessage
      rw [if_neg (by rw [hS1]; have := hfit plast (by simp); omega),
        if_neg (by rw [hN1]; omega), if_pos ⟨rfl, hfull⟩]
    have happ := writeSeq_append false (initHeader N S buf) s1 qs [plast]
      (List.replicate qs.length true) hseq1
    refine ⟨{ s1 with dropCount := wrap64 (s1.dropCount + 1) }, ?_, ?_, ?_, ?_⟩
    · rw [happ, writeSeq_cons, hlast]
      dsimp only
      rw [writeSeq_nil]
      dsimp only [Except.map]
      have hq : (qs ++ [plast]).length - 1 = qs.length := by simp
      rw [hq]
    · simp only
      rw [hhead1]
      omega
    · simp only
      rw [hdrop1]
      have h1 : wrap64 (0 + 1) = 1 := by
        apply wrap64_id <;> norm_num
      simpa using h1
    · simpa using htail1

/-- Witness for C2 on a fresh 2-slot ring: the first write succeeds, the
second returns `False` with `DROP_COUNT = 1`. -/
theorem c2_sentinel_capacity_witness :
    ∃ sf, writeSeq false (initHeader 2 8 (fun _ => 0)) [[1], [2]] =
        (sf, .ok (List.replicate 1 true ++ [false])) ∧
      sf.head = 1 ∧ sf.dropCount = 1 ∧ sf.tail = 0 := by
  have h := c2_sentinel_capacity 2 8 (fun _ => 0) [[1], [2]]
    (by decide) (by decide) (by decide) (by decide) (by decide)
  simpa using h

/-- Claim C9: frame of a rejected write.  When a non-overwrite,
non-blocking `write_message` finds the ring full, the returned value is
`False` and the post-state differs from the pre-state in the `DROP_COUNT`
cell alone, incremented by exactly 1 — `HEAD`, `TAIL`, `MSG_COUNT`,
`NUM_SLOTS`, `SLOT_SIZE`, `MAGIC`, `VERSION` and the whole slot memory
(`buf`) are untouched, as the record-update equality states. -/
theorem c9_reject_frame (s : RingState) (p : List Nat)
    (hfit : (p.length : Int) ≤ s.slotSize - SLOT_PREFIX_SIZE)
    (hNz : s.numSlots ≠ 0)
    (hfull : Int.fmod (s.head + 1) s.numSlots = s.tail)
    (hd0 : -(2 ^ 63) ≤ s.dropCount + 1) (hd1 : s.dropCount + 1 < 2 ^ 63) :
    writeMessage s p false =
      ({ s with dropCount := s.dropCount + 1 }, .ok false) := by
  unfold writeMessage
  rw [if_neg (by omega), if_neg hNz, if_pos ⟨rfl, hfull⟩,
    wrap64_id _ hd0 hd1]

/-- Witness for C9 on a concrete full ring (1 slot, so immediately full). -/
theorem c9_reject_frame_witness :
    writeMessage (initHeader 1 8 (fun _ => 0)) [5] false =
      ({ initHeader 1 8 (fun _ => 0) with
          dropCount := (initHeader 1 8 (fun _ => 0)).dropCount + 1 },
        .ok false) :=
  c9_reject_frame (initHeader 1 8 (fun _ => 0)) [5] (by decide) (by decide)
    (by decide) (by decide) (by decide)

/-- Witness for C1 on a concrete 4-slot, 8-byte-slot segment. -/
theorem c1_raw_roundtrip_witness :
    readMessageSpsc
        (writeMessage (initHeader 4 8 (fun _ => 0)) [9, 7] false).1 0 =
      .ok (some ([9, 7], 1)) := by
  have h := c1_raw_roundtrip (initHeader 4 8 (fun _ => 0))
    (writeMessage (initHeader 4 8 (fun _ => 0)) [9, 7] false).1 [9, 7]
    (by decide) (by decide) (by decide) (by decide) (by decide) (by decide)
    rfl
  exact h

/-- Claim C4 counterexample.  A reply segment can be observed at attach
time with `HEAD = 1` (the Replier already published a reply in an earlier
exchange); the Requester nevertheless initializes its reply cursor to 0,
not to the observed `HEAD`. -/
theorem c4_counterexample :
    requesterInitRepTail
        { magic := MAGIC, version := VERSION, head := 1, tail := 0,
          msgCount := 1, dropCount := 0, numSlots := 16, slotSize := 8192,
          buf := fun _ => 0 } = 0 ∧
      ({ magic := MAGIC, version := VERSION, head := 1, tail := 0,
          msgCount := 1, dropCount := 0, numSlots := 16, slotSize := 8192,
          buf := fun _ => 0 } : RingState).head = 1 :=
  ⟨rfl, rfl⟩

/-- Claim C4 (amended): the Subscriber initializes its private cursor to
the `HEAD` observed at attach time — so its very first read on the
unchanged segment reports empty, skipping the backlog — while the
Requester's reply-channel cursor is initialized to the constant 0
regardless of the observed `HEAD`. -/
theorem c4_cursor_init_amended :
    (∀ s : RingState, subscriberInitTail s = s.head) ∧
    (∀ s : RingState,
      readMessageSpsc s (subscriberInitTail s) = .ok none) ∧
    (∀ s : RingState, requesterInitRepTail s = 0) := by
  refine ⟨fun s => rfl, fun s => ?_, fun s => rfl⟩
  unfold readMessageSpsc subscriberInitTail
  rw [if_pos rfl]

/-- Claim C5 counterexample.  An oversized payload (5 bytes into an
8-byte slot, capacity 4) raises the Python builtin `ValueError`
(buffer.py line 131), which is not part of the `SHMError` hierarchy —
there is no `ArgumentError` class in exceptions.py at all. -/
theorem c5_counterexample :
    writeMessage (initHeader 4 8 (fun _ => 0)) [1, 2, 3, 4, 5] false =
        (initHeader 4 8 (fun _ => 0), .error .valueError) ∧
      PyError.valueError.inShmHierarchy = false :=
  ⟨rfl, rfl⟩

/-- Claim C5 (amended): an oversized payload makes `write_message` raise
the builtin `ValueError` — outside the `SHMError` hierarchy — before any
mutation, so the returned state is the pre-state; serialization with an
unrecognized method (reached only for non-byte-like inputs) raises
`SHMSerializationError`, which is in the hierarchy, and `serialize` never
touches ring state (it takes none). -/
theorem c5_argument_errors_amended (s : RingState) (p : List Nat)
    (ow : Bool) (hbig : (p.length : Int) > s.slotSize - SLOT_PREFIX_SIZE) :
    (writeMessage s p ow = (s, .error .valueError) ∧
      PyError.valueError.inShmHierarchy = false) ∧
    (∀ (avail : Bool) (pickled packed : Option (List Nat))
        (method : String),
      method ≠ "pickle" → method ≠ "msgpack" →
        serialize avail (.other pickled packed) method =
            .error .unknownMethod ∧
          SerError.unknownMethod.toPyError = .shmSerializationError ∧
          PyError.shmSerializationError.inShmHierarchy = true) := by
  refine ⟨⟨?_, rfl⟩, ?_⟩
  · unfold writeMessage
    rw [if_pos hbig]
  · intro avail pickled packed method h1 h2
    refine ⟨?_, rfl, rfl⟩
    simp [serialize, h1, h2]

/-- Witness for the amended C5 at a concrete oversized write and a
concrete unknown serialization method. -/
theorem c5_argument_errors_amended_witness :
    (writeMessage (initHeader 2 8 (fun _ => 0)) [9, 9, 9, 9, 9] false =
        (initHeader 2 8 (fun _ => 0), .error .valueError) ∧
      PyError.valueError.inShmHierarchy = false) ∧
    (serialize true (.other none none) "json" = .error .unknownMethod ∧
      SerError.unknownMethod.toPyError = .shmSerializationError ∧
      PyError.shmSerializationError.inShmHierarchy = true) := by
  have h := c5_argument_errors_amended (initHeader 2 8 (fun _ => 0))
    [9, 9, 9, 9, 9] false (by decide)
  exact ⟨h.1, h.2 true none none "json" (by decide) (by decide)⟩

/-- Claim C10: byte-like inputs (`bytes`/`bytearray`/`memoryview`) pass
through `serialize` unchanged for every method string, including
unrecognized ones — the `isinstance` test precedes the method dispatch —
so the unknown-method error can only arise for non-byte-like inputs. -/
theorem c10_bytes_passthrough :
    (∀ (avail : Bool) (data : List Nat) (method : String),
      serialize avail (.bytesLike data) method = .ok data) ∧
    (∀ (avail : Bool) (obj : PyObj) (method : String),
      serialize avail obj method = .error .unknownMethod →
        ∀ data : List Nat, obj ≠ .bytesLike data) := by
  constructor
  · intro avail data method
    rfl
  · intro avail obj method h data hcon
    subst hcon
    exact absurd h (by simp [serialize])

/-- Witness for C10: a byte-like payload survives a bogus method string,
and the unknown-method error indeed arises from a non-byte-like input. -/
theorem c10_bytes_passthrough_witness :
    serialize true (.bytesLike [1, 2, 3]) "nope" = .ok [1, 2, 3] ∧
      ∀ data : List Nat, PyObj.other none none ≠ .bytesLike data :=
  ⟨c10_bytes_passthrough.1 true [1, 2, 3] "nope",
    c10_bytes_passthrough.2 true (.other none none) "nope" rfl⟩

/-- Claim C8: idempotence of close.  A second `Publisher.close` /
`Subscriber.close` finds `self._shm` already `None` and changes nothing,
raising nothing (`.ok ()`), and `close_segment` itself is idempotent on
the observable segment state for either `destroy` flag. -/
theorem c8_close_idempotent :
    (∀ p : PublisherState,
      publisherClose (publisherClose p).1 = ((publisherClose p).1, .ok ())) ∧
    (∀ q : SubscriberState,
      subscriberClose (subscriberClose q).1
        = ((subscriberClose q).1, .ok ())) ∧
    (∀ (w : SegHandle) (destroy : Bool),
      closeSegment (closeSegment w destroy) destroy
        = closeSegment w destroy) := by
  refine ⟨?_, ?_, ?_⟩
  · intro p
    by_cases h : p.shmOpen <;> simp [publisherClose, h, closeSegment]
  · intro q
    by_cases h : q.shmOpen <;> simp [subscriberClose, h, closeSegment]
  · intro w destroy
    cases destroy <;> simp [closeSegment]

theorem attachLoop_nil (d : Time) : attachLoop d [] = .ranOut := rfl

theorem attachLoop_cons (d now : Time) (pr : SegProbe)
    (rest : List (Time × SegProbe)) :
    attachLoop d ((now, pr) :: rest) =
      if now < d then
        match pr with
        | .absent => attachLoop d rest
        | .otherError => attachLoop d rest
        | .present m v =>
          match validateHeader m v with
          | .ok _ => .attached
          | .error _ => .headerError
      else .timedOut := rfl

/-- Claim C7: attach semantics.  (1) Validation succeeds exactly when both
MAGIC and VERSION are correct.  (2) A present segment with a bad header
makes the poll fail at once with `headerError`, whatever probes would have
followed — no retry.  (3) When the segment stays absent, polling retries
until a clock reading at or past the deadline, then fails with
`timedOut`.  (4) Absent probes before the deadline are retried until a
valid segment appears, which attaches.  (5) Both failures raise
`SHMConnectionError`.  (6) The defaults are 5 s and 5 ms. -/
theorem c7_attach_semantics :
    (∀ m v : Int, validateHeader m v = .ok () ↔ (m = MAGIC ∧ v = VERSION)) ∧
    (∀ (d now : Time) (m v : Int) (rest : List (Time × SegProbe)),
      now < d → ¬(m = MAGIC ∧ v = VERSION) →
        attachLoop d ((now, .present m v) :: rest) = .headerError) ∧
    (∀ (d : Time) (probes : List (Time × SegProbe)),
      (∀ ob ∈ probes, ob.2 = SegProbe.absent) →
      (∃ ob ∈ probes, d ≤ ob.1) →
        attachLoop d probes = .timedOut) ∧
    (∀ (d now : Time) (pre rest : List (Time × SegProbe)),
      (∀ ob ∈ pre, ob.2 = SegProbe.absent ∧ ob.1 < d) → now < d →
        attachLoop d (pre ++ (now, .present MAGIC VERSION) :: rest)
          = .attached) ∧
    (AttachResult.headerError.raised = some PyError.shmConnectionError ∧
      AttachResult.timedOut.raised = some PyError.shmConnectionError) ∧
    (ATTACH_TIMEOUT_DEFAULT = 5 ∧
      ATTACH_POLL_INTERVAL_DEFAULT = 5 / 1000) := by
  have hval : ∀ m v : Int,
      validateHeader m v = .ok () ↔ (m = MAGIC ∧ v = VERSION) := by
    intro m v
    unfold validateHeader
    by_cases h1 : m = MAGIC <;> by_cases h2 : v = VERSION <;>
      simp [h1, h2]
  refine ⟨hval, ?_, ?_, ?_, ⟨rfl, rfl⟩, ⟨rfl, rfl⟩⟩
  · intro d now m v rest hlt hbad
    rw [attachLoop_cons, if_pos hlt]
    have hne : validateHeader m v ≠ .ok () := fun hok =>
      hbad ((hval m v).mp hok)
    cases hv : validateHeader m v with
    | ok u =>
      cases u
      exact absurd hv hne
    | error e =>
      simp [hv]
  · intro d probes
    induction probes with
    | nil =>
      intro _ hex
      rcases hex with ⟨ob, hmem, -⟩
      exact absurd hmem (by simp)
    | cons ob rest ih =>
      intro hall hex
      obtain ⟨now, pr⟩ := ob
      have hpr : pr = .absent := hall (now, pr) (by simp)
      subst hpr
      rw [attachLoop_cons]
      by_cases hlt : now < d
      · rw [if_pos hlt]
        dsimp only
        apply ih
        · intro ob2 hmem2
          exact hall ob2 (by simp [hmem2])
        · rcases hex with ⟨ob2, hmem2, hd2⟩
          rcases List.mem_cons.mp hmem2 with he | hm
          · rw [he] at hd2
            exact absurd hd2 (not_le.mpr hlt)
          · exact ⟨ob2, hm, hd2⟩
      · rw [if_neg hlt]
  · intro d now pre rest hpre hnow
    induction pre with
    | nil =>
      rw [List.nil_append, attachLoop_cons, if_pos hnow]
      rfl
    | cons ob pre2 ih =>
      obtain ⟨t2, pr2⟩ := ob
      obtain ⟨hab, hlt2⟩ := hpre (t2, pr2) (by simp)
      subst hab
      rw [List.cons_append, attachLoop_cons, if_pos hlt2]
      dsimp only
      exact ih (fun ob2 hmem2 => hpre ob2 (by simp [hmem2]))

/-- Witness for C7: a bad-magic probe fails immediately; an
always-absent schedule whose clock passes the 5 s default deadline times
out; an absent probe followed by a valid segment attaches. -/
theorem c7_attach_semantics_witness :
    validateHeader MAGIC VERSION = .ok () ∧
      attachLoop 5 [(0, .present 7 VERSION), (1, .present MAGIC VERSION)]
        = .headerError ∧
      attachLoop 5 [(0, .absent), (6, .absent)] = .timedOut ∧
      attachLoop 5 [(0, .absent), (1, .present MAGIC VERSION)]
        = .attached := by
  refine ⟨(c7_attach_semantics.1 MAGIC VERSION).mpr ⟨rfl, rfl⟩, ?_, ?_, ?_⟩
  · exact c7_attach_semantics.2.1 5 0 7 VERSION [(1, .present MAGIC VERSION)]
      (by norm_num) (by decide)
  · exact c7_attach_semantics.2.2.1 5 [(0, .absent), (6, .absent)]
      (by decide) ⟨(6, .absent), by simp, by norm_num⟩
  · exact c7_attach_semantics.2.2.2.1 5 1 [(0, .absent)] []
      (by intro ob hmem
          simp only [List.mem_singleton] at hmem
          subst hmem
          exact ⟨rfl, by norm_num⟩)
      (by norm_num)

theorem writeWaitLoop_nil (s : RingState) (d : Option Time) :
    writeWaitLoop s d [] = .ranOut := rfl

theorem writeWaitLoop_cons (s : RingState) (d : Option Time) (tl : Int)
    (now : Time) (rest : List (Int × Time)) :
    writeWaitLoop s d ((tl, now) :: rest) =
      if s.numSlots = 0 then .raised .zeroDivisionError
      else if Int.fmod (s.head + 1) s.numSlots ≠ tl then .freeSlot
      else
        match d with
        | some dd => if dd ≤ now then .raised .shmBufferFullError
                     else writeWaitLoop s (some dd) rest
        | none => writeWaitLoop s none rest := rfl

/-- Claim C6: blocking write on a full ring.  With `block=True` and a
timeout, if every loop iteration observes the ring full
(`next_head = TAIL`) and some iteration's clock reading reaches the
deadline `start + timeout`, the call raises `SHMBufferFullError` — which
is a different exception from `SHMTimeoutError` — whereas if the ring is
observed full only at pre-deadline instants and then a free slot is
observed, the call commits the payload and returns `True`. -/
theorem c6_blocking_full_write (s : RingState) (p : List Nat)
    (t start : Time) (trace : List (Int × Time))
    (hfit : (p.length : Int) ≤ s.slotSize - SLOT_PREFIX_SIZE)
    (hNz : s.numSlots ≠ 0) :
    ((∀ ob ∈ trace, ob.1 = Int.fmod (s.head + 1) s.numSlots) →
      (∃ ob ∈ trace, start + t ≤ ob.2) →
      writeMessageBlocking s p (some t) start trace =
        .raised .shmBufferFullError) ∧
    (PyError.shmBufferFullError ≠ PyError.shmTimeoutError) ∧
    (∀ (pre post : List (Int × Time)) (tl : Int) (now : Time),
      (∀ ob ∈ pre, ob.1 = Int.fmod (s.head + 1) s.numSlots ∧
        ob.2 < start + t) →
      tl ≠ Int.fmod (s.head + 1) s.numSlots → p.length < 2 ^ 32 →
      ∃ s2, writeMessageBlocking s p (some t) start
          (pre ++ (tl, now) :: post) = .committed s2) := by
  refine ⟨?_, by decide, ?_⟩
  · intro hfull hexp
    have hloop : writeWaitLoop s (some (start + t)) trace
        = .raised .shmBufferFullError := by
      clear hfit
      induction trace with
      | nil =>
        rcases hexp with ⟨ob, hmem, -⟩
        exact absurd hmem (by simp)
      | cons ob rest ih =>
        obtain ⟨tl, now⟩ := ob
        have htl : tl = Int.fmod (s.head + 1) s.numSlots :=
          hfull (tl, now) (by simp)
        rw [writeWaitLoop_cons, if_neg hNz,
          if_neg (by rw [htl]; simp)]
        dsimp only
        by_cases hd : start + t ≤ now
        · rw [if_pos hd]
        · rw [if_neg hd]
          apply ih
          · intro ob2 hmem2
            exact hfull ob2 (by simp [hmem2])
          · rcases hexp with ⟨ob2, hmem2, hd2⟩
            rcases List.mem_cons.mp hmem2 with he | hm
            · rw [he] at hd2
              exact absurd hd2 hd
            · exact ⟨ob2, hm, hd2⟩
    unfold writeMessageBlocking
    rw [if_neg (by omega)]
    dsimp only [Option.map]
    rw [hloop]
  · intro pre post tl now hpre htl hp32
    have hloop : writeWaitLoop s (some (start + t))
        (pre ++ (tl, now) :: post) = .freeSlot := by
      induction pre with
      | nil =>
        rw [List.nil_append, writeWaitLoop_cons, if_neg hNz,
          if_pos (fun he => htl he.symm)]
      | cons ob pre2 ih =>
        obtain ⟨tl2, now2⟩ := ob
        have htl2 : tl2 = Int.fmod (s.head + 1) s.numSlots :=
          (hpre (tl2, now2) (by simp)).1
        have hnow2 : now2 < start + t := (hpre (tl2, now2) (by simp)).2
        rw [List.cons_append, writeWaitLoop_cons, if_neg hNz,
          if_neg (by rw [htl2]; simp)]
        dsimp only
        rw [if_neg (not_le.mpr hnow2)]
        exact ih (fun ob2 hmem2 => hpre ob2 (by simp [hmem2]))
    refine ⟨{ s with
        buf := writeBytes (writeBytes s.buf (slotOffset s.head s.slotSize)
            (packU32 p.length))
          (slotOffset s.head s.slotSize + SLOT_PREFIX_SIZE) p
        head := wrap64 (Int.fmod (s.head + 1) s.numSlots)
        msgCount := wrap64 (s.msgCount + 1) }, ?_⟩
    unfold writeMessageBlocking
    rw [if_neg (by omega)]
    dsimp only [Option.map]
    rw [hloop]
    dsimp only
    unfold writeCommit writeSlot
    rw [if_pos hp32]

/-- Witness for C6: a 1-slot ring is permanently full, so a blocking
write whose second iteration reads the clock past the deadline raises
`SHMBufferFullError`; on a 4-slot ring, one full observation before the
deadline followed by a freed slot lets the write commit. -/
theorem c6_blocking_full_write_witness :
    writeMessageBlocking (initHeader 1 8 (fun _ => 0)) [7] (some 1) 0
        [(0, 0), (0, 2)] = .raised .shmBufferFullError ∧
      ∃ s2, writeMessageBlocking (initHeader 4 8 (fun _ => 0)) [7] (some 1) 0
        [(1, 1 / 2), (3, 3 / 4)] = .committed s2 := by
  constructor
  · exact (c6_blocking_full_write (initHeader 1 8 (fun _ => 0)) [7] 1 0
      [(0, 0), (0, 2)] (by decide) (by decide)).1
      (by decide) ⟨(0, 2), by simp, by norm_num⟩
  · exact (c6_blocking_full_write (initHeader 4 8 (fun _ => 0)) [7] 1 0
      [(1, 1 / 2), (3, 3 / 4)] (by decide) (by decide)).2.2
      [(1, 1 / 2)] [] 3 (3 / 4)
      (by intro ob hmem
          simp only [List.mem_singleton] at hmem
          subst hmem
          exact ⟨by decide, by norm_num⟩)
      (by decide) (by decide)

end ShmComm
